import Mathlib

/-!
Verification of the `krane-storage-mongo` CRUD controller.

The repository consists of a generic mongoose-backed CRUD controller
(`BasicController` with its query helpers `normalizeQuery` and
`prepareFilter`) and a thin mongoose connection wrapper.  This file gives a
shallow embedding of those functions: JavaScript values become an inductive
`JVal`, JavaScript objects become ordered association lists, promises become
`Except`, and the external storage/driver calls become explicit parameters.
-/

namespace KraneStorageMongo

/-- JavaScript-style values as they appear in request bodies, query objects
and mongoose filters: strings, numbers, `undefined`, native ObjectIds,
regular-expression objects, arrays and plain objects. -/
inductive JVal where
  | str (s : String)
  | num (n : Int)
  | undef
  | oid (s : String)
  | regex (pattern : String) (flags : String)
  | arr (xs : List JVal)
  | obj (fields : List (String × JVal))

/-- A JavaScript object: an ordered list of key/value pairs (keys unique in
any object the code builds; `List.lookup` returns the first binding). -/
abbrev Obj := List (String × JVal)

/-- JavaScript property access `o[k]`: an absent key reads as `undefined`. -/
def jsGet (o : Obj) (k : String) : JVal :=
  (o.lookup k).getD JVal.undef

/-- Test of a value against `undefined`, modelling the JavaScript
comparison `v !== undefined` (negated). -/
def JVal.isUndef : JVal → Bool
  | .undef => true
  | _ => false

/-- Model of `mongoose.Types.ObjectId.isValid` (external library): a value is
a syntactically valid ObjectId when it is already a native id, or a string of
24 hexadecimal characters, or a 12-character string. -/
def isValidObjectId : JVal → Bool
  | .oid _ => true
  | .str s => (s.length == 24 && s.data.all fun c => c.isDigit || ('a' ≤ c && c ≤ 'f') || ('A' ≤ c && c ≤ 'F')) || s.length == 12
  | _ => false

/-- Model of the `mongoose.Types.ObjectId` constructor (external library):
converts a valid id value to the native id representation. -/
def toObjectId : JVal → JVal
  | .str s => .oid s
  | v => v

/-- JavaScript truthiness of `v && v.length` as used by `normalizeQuery`:
only arrays and strings have a `length` property, and it must be non-zero
(`undefined`, numbers, objects and ids all fail the test). -/
def truthyLength : JVal → Bool
  | .arr xs => !xs.isEmpty
  | .str s => !s.isEmpty
  | _ => false

/-- Embedding of `normalizeQuery` (part_000 lines 15–23):
`let { $or, $and, ...rest } = query` keeps every key except the two group
keys, in order; then each group key is re-appended (in the order `$or`,
`$and`) exactly when `query[key] && query[key].length` holds. -/
def normalizeQuery (query : Obj) : Obj :=
  let rest := query.filter fun kv => kv.1 != "$or" && kv.1 != "$and"
  let keep := (["$or", "$and"]).filterMap fun key =>
    match query.lookup key with
    | some v => if truthyLength v then some (key, v) else none
    | none => none
  rest ++ keep

/-- Embedding of `prepareFilter` (part_000 lines 31–42): for each filter name
whose query value is not `undefined`, push the equality condition
`{ [name]: value }`, converting a syntactically valid ObjectId value to the
native representation first. -/
def prepareFilter (query : Obj) (filterNames : List String) : List JVal :=
  filterNames.filterMap fun name =>
    if (jsGet query name).isUndef then none
    else
      let value := if isValidObjectId (jsGet query name) then toObjectId (jsGet query name) else jsGet query name
      some (JVal.obj [(name, value)])

/-- The id conversion applied by `prepareFilter` to a single value. -/
def convertIdVal (v : JVal) : JVal :=
  if isValidObjectId v then toObjectId v else v

/-- JavaScript property assignment `o[k] = v`: replaces the binding in place
when the key exists, otherwise appends it (insertion order). -/
def setKey (o : Obj) (k : String) (v : JVal) : Obj :=
  if (o.lookup k).isSome then o.map fun kv => if kv.1 == k then (k, v) else kv
  else o ++ [(k, v)]

/-- Embedding of `Object.assign(target, source)`: assigns every key of `source` onto
`target` in order (later assignments win for duplicate keys). -/
def objectAssign (target source : Obj) : Obj :=
  source.foldl (fun acc kv => setKey acc kv.1 kv.2) target

/-- The item-data construction shared by `create` (part_000 line 88) and
`update` (line 103): `this.options.fieldNames.forEach(field =>
itemData[field] = req.body[field])` — one binding per whitelisted field,
reading absent body keys as `undefined`. -/
def buildItemData (fieldNames : List String) (body : Obj) : Obj :=
  fieldNames.map fun field => (field, jsGet body field)

/-- The character class of the escaping replace in `list` (part_000 line
129): `/[.*+?^${}()|[\]\\]/g`. -/
def regexMetaChars : List Char :=
  ['.', '*', '+', '?', '^', '$', '\x7b', '\x7d', '(', ')', '|', '[', ']', '\\']

/-- Character-list form of the escaping: every metacharacter is replaced by
a backslash followed by itself (`'\\$&'`). -/
def escapeChars : List Char → List Char
  | [] => []
  | c :: rest => (if c ∈ regexMetaChars then ['\\', c] else [c]) ++ escapeChars rest

/-- Embedding of `q.replace(/[.*+?^${}()|[\]\\]/g, '\\$&')` (part_000 line
129). -/
def escapeRegex (q : String) : String :=
  String.mk (escapeChars q.data)

/-- Parse of a regular-expression pattern that consists solely of literal
atoms: a backslash-escaped character denotes that character literally, a
plain non-metacharacter denotes itself, and any unescaped metacharacter (or
dangling backslash) means the pattern is not a pure literal (`none`). -/
def parseLiteralPattern : List Char → Option (List Char)
  | [] => some []
  | c :: rest =>
    if c = '\\' then
      match rest with
      | [] => none
      | d :: rest' => (parseLiteralPattern rest').map (d :: ·)
    else if c ∈ regexMetaChars then none
    else (parseLiteralPattern rest).map (c :: ·)

/-- Whether `needle` is a prefix of `hay` (on character lists). -/
def isPrefixChars : List Char → List Char → Bool
  | [], _ => true
  | _ :: _, [] => false
  | a :: as, b :: bs => a == b && isPrefixChars as bs

/-- Whether `needle` occurs as a contiguous substring of `hay`. -/
def isSubChars (needle : List Char) : List Char → Bool
  | [] => needle.isEmpty
  | b :: bs => isPrefixChars needle (b :: bs) || isSubChars needle bs

/-- Lower-case a character list (the case-folding of the `'i'` flag). -/
def lowerChars (s : List Char) : List Char :=
  s.map Char.toLower

/-- Model of `new RegExp(pattern, 'i').test(s)` (external library) for the
patterns the controller builds: a pattern consisting solely of literal atoms
matches exactly the strings containing its denoted character sequence
case-insensitively. -/
def regexTestCI (pattern : String) (s : String) : Bool :=
  match parseLiteralPattern pattern.data with
  | some lit => isSubChars (lowerChars lit) (lowerChars s.data)
  | none => false

mutual

/-- Modelled from the spec: value-level merge of `mergeDeep` from `./util`,
a file not included in the sources — "array-valued keys concatenate;
object-valued keys merge recursively; scalar keys from the extra fragment
are layered alongside" (spec §4.1). -/
def mergeVal : JVal → JVal → JVal
  | .arr xs, .arr ys => .arr (xs ++ ys)
  | .obj fs, .obj gs => .obj (mergeObj fs gs)
  | _, v => v

/-- Modelled from the spec: object-level `mergeDeep` from `./util` (not in
the sources): each key of the extra fragment is merged onto the target —
recursively for keys present on both sides, appended otherwise. -/
def mergeObj (target : Obj) : Obj → Obj
  | [] => target
  | (k, v) :: rest =>
    let target' := match target.lookup k with
      | some tv => setKey target k (mergeVal tv v)
      | none => target ++ [(k, v)]
    mergeObj target' rest

end

/-- The call `mergeDeep({ $or, $and }, extraQuery)` made by `list` (part_000
line 133). -/
def mergeDeep (target source : Obj) : Obj :=
  mergeObj target source

/-- The outcome a controller operation hands to its collaborators:
`json payload` models `res.json(payload)`, `errorRes s m` models
`res.status(s).send({ message: m })`, `proceed doc` models attaching the
resolved document to the request and calling `next()`, and `routeError m`
models `next(err)`. -/
inductive Response where
  | json (payload : JVal)
  | errorRes (status : Nat) (message : String)
  | proceed (doc : JVal)
  | routeError (message : String)

/-- A storage-layer call issued by an operation (used to state that a code
path never reaches storage). -/
inductive StorageOp where
  | findById (id : String)

/-- The `OPERATION_TYPE` enumeration of part_000 lines 5–8, selecting which
document method the save/delete dispatcher invokes. -/
inductive OperationType where
  | save
  | delete

namespace BasicController

/-- Embedding of the private `[operation]` dispatcher (part_000 lines
234–243): awaiting `item[operationType]()` — the item's storage methods are
passed in as a function of the operation type — answers `res.json(result)`
on success and `res.status(400).send({ message: e.message })` on failure. -/
def operationDispatch (operationType : OperationType) (itemMethods : OperationType → Except String JVal) : Response :=
  match itemMethods operationType with
  | Except.ok saveResponse => Response.json saveResponse
  | Except.error e => Response.errorRes 400 e

/-- The dispatched item of a mutating operation together with the response
produced for it. -/
structure OpOutcome where
  item : Obj
  response : Response

/-- Embedding of `create` (part_000 lines 86–93): build the whitelisted item
data, pass it through `preCreateHandler` (a parameter, identity by default),
construct the document, overwrite its `user` field with `req.user`, and
dispatch with intent save.  `methods` gives each candidate document its
storage methods. -/
def create (fieldNames : List String) (body : Obj) (preCreateHandler : Obj → Obj) (user : JVal) (methods : Obj → OperationType → Except String JVal) : OpOutcome :=
  let itemData := buildItemData fieldNames body
  let updatedItemData := preCreateHandler itemData
  let item := setKey updatedItemData "user" user
  { item := item, response := operationDispatch OperationType.save (methods item) }

/-- Embedding of `update` (part_000 lines 101–107): build the whitelisted
payload, pass it through `preUpdateHandler`, apply it onto the resolved
document with `Object.assign`, and dispatch with intent save. -/
def update (fieldNames : List String) (body : Obj) (preUpdateHandler : Obj → Obj) (doc : Obj) (methods : Obj → OperationType → Except String JVal) : OpOutcome :=
  let itemData := buildItemData fieldNames body
  let updatedItemData := preUpdateHandler itemData
  let item := objectAssign doc updatedItemData
  { item := item, response := operationDispatch OperationType.save (methods item) }

/-- Embedding of `delete` (part_000 lines 114–118): pass the resolved
document through `preDeleteHandler` and dispatch with intent delete. -/
def delete (doc : Obj) (preDeleteHandler : Obj → Obj) (methods : Obj → OperationType → Except String JVal) : OpOutcome :=
  let updatedItem := preDeleteHandler doc
  { item := updatedItem, response := operationDispatch OperationType.delete (methods updatedItem) }

/-- Embedding of `get` (part_000 lines 161–187): an id that is not a valid
ObjectId answers 400 "ID is invalid" before any storage call; otherwise the
`findById` result (a parameter standing for the awaited storage promise)
yields 404 on a missing document, `proceed` on a found one, and `next(err)`
on a storage error.  The second component records the storage calls made. -/
def get (id : String) (findByIdResult : Except String (Option JVal)) : Response × List StorageOp :=
  if !isValidObjectId (JVal.str id) then
    (Response.errorRes 400 "ID is invalid", [])
  else
    match findByIdResult with
    | Except.error err => (Response.routeError err, [StorageOp.findById id])
    | Except.ok none => (Response.errorRes 404 "No item with that identifier has been found", [StorageOp.findById id])
    | Except.ok (some doc) => (Response.proceed doc, [StorageOp.findById id])

/-- Embedding of the filter composition in `list` (part_000 lines 127–135):
escape the search term, build one case-insensitive regex condition per
configured search field, build the exact-match filter, deep-merge the extra
fragment from `preListHandler`, and normalize. -/
def listComposeQuery (q : String) (fieldNamesSearch fieldNamesSearchFilter : List String) (reqQuery : Obj) (extraQuery : Obj) : Obj :=
  let escaped := escapeRegex q
  let orGroup := fieldNamesSearch.map fun field =>
    JVal.obj [(field, JVal.obj [("$regex", JVal.regex escaped "i")])]
  let andGroup := prepareFilter reqQuery fieldNamesSearchFilter
  normalizeQuery (mergeDeep [("$or", JVal.arr orGroup), ("$and", JVal.arr andGroup)] extraQuery)

end BasicController

/-- Embedding of `connect` (src/mongoose.js lines 23–34): the driver's
`mongoose.connect` promise is a parameter; its `.then` returns the
connection handle and its `.catch` logs and returns `undefined`, so the
wrapper's promise is modelled as `Except String (Option JVal)` where `none`
stands for the undefined handle of the caught branch. -/
def connect (driverConnect : Except String Unit) (connection : JVal) : Except String (Option JVal) :=
  match driverConnect.map fun _ => some connection with
  | Except.ok v => Except.ok v
  | Except.error _ => Except.ok none

section LookupLemmas

theorem lookup_cons_self (k : String) (v : JVal) (l : Obj) :
    ((k, v) :: l).lookup k = some v := by
  simp [List.lookup]

theorem lookup_cons_ne (k k₀ : String) (v₀ : JVal) (l : Obj) (h : k ≠ k₀) :
    ((k₀, v₀) :: l).lookup k = l.lookup k := by
  simp [List.lookup, beq_false_of_ne h]

theorem lookup_append (l₁ l₂ : Obj) (k : String) :
    (l₁ ++ l₂).lookup k = (l₁.lookup k).or (l₂.lookup k) := by
  induction l₁ with
  | nil => simp [List.lookup]
  | cons kv rest ih =>
    obtain ⟨k₀, v₀⟩ := kv
    by_cases h : k = k₀
    · subst h
      simp [lookup_cons_self]
    · simp [List.cons_append, lookup_cons_ne _ _ _ _ h, ih]

theorem lookup_eq_none_of_not_mem (l : Obj) (k : String) (h : k ∉ l.map Prod.fst) :
    l.lookup k = none := by
  induction l with
  | nil => rfl
  | cons kv rest ih =>
    obtain ⟨k₀, v₀⟩ := kv
    simp only [List.map_cons, List.mem_cons, not_or] at h
    rw [lookup_cons_ne _ _ _ _ h.1]
    exact ih h.2

theorem lookup_filter_of_keep (l : Obj) (p : String × JVal → Bool) (k : String)
    (hp : ∀ v, p (k, v) = true) :
    (l.filter p).lookup k = l.lookup k := by
  induction l with
  | nil => rfl
  | cons kv rest ih =>
    obtain ⟨k₀, v₀⟩ := kv
    by_cases h : k = k₀
    · subst h
      simp [List.filter_cons, hp v₀, lookup_cons_self]
    · cases hkeep : p (k₀, v₀) <;>
        simp [List.filter_cons, hkeep, lookup_cons_ne _ _ _ _ h, ih]

theorem lookup_filter_of_drop (l : Obj) (p : String × JVal → Bool) (k : String)
    (hp : ∀ v, p (k, v) = false) :
    (l.filter p).lookup k = none := by
  induction l with
  | nil => rfl
  | cons kv rest ih =>
    obtain ⟨k₀, v₀⟩ := kv
    by_cases h : k = k₀
    · subst h
      simp [List.filter_cons, hp v₀, ih]
    · cases hkeep : p (k₀, v₀) <;>
        simp [List.filter_cons, hkeep, lookup_cons_ne _ _ _ _ h, ih]

theorem lookup_map_replace_eq (o : Obj) (k₀ : String) (v₀ : JVal)
    (h : (o.lookup k₀).isSome) :
    (o.map fun kv => if kv.1 == k₀ then (k₀, v₀) else kv).lookup k₀ = some v₀ := by
  induction o with
  | nil => simp [List.lookup] at h
  | cons kv rest ih =>
    obtain ⟨k₁, v₁⟩ := kv
    by_cases hk : k₁ = k₀
    · subst hk
      simp [lookup_cons_self]
    · have hne : k₀ ≠ k₁ := fun hc => hk hc.symm
      rw [lookup_cons_ne _ _ _ _ hne] at h
      simp only [List.map_cons, beq_false_of_ne hk, Bool.false_eq_true, if_false]
      rw [lookup_cons_ne _ _ _ _ hne]
      exact ih h

theorem lookup_map_replace_ne (o : Obj) (k₀ : String) (v₀ : JVal) (k : String)
    (h : k ≠ k₀) :
    (o.map fun kv => if kv.1 == k₀ then (k₀, v₀) else kv).lookup k = o.lookup k := by
  induction o with
  | nil => rfl
  | cons kv rest ih =>
    obtain ⟨k₁, v₁⟩ := kv
    by_cases hk : k₁ = k₀
    · subst hk
      simp only [List.map_cons, beq_self_eq_true, if_true]
      rw [lookup_cons_ne _ _ _ _ h, lookup_cons_ne _ _ _ _ h]
      exact ih
    · simp only [List.map_cons, beq_false_of_ne hk, Bool.false_eq_true, if_false]
      by_cases hkk : k = k₁
      · subst hkk
        rw [lookup_cons_self, lookup_cons_self]
      · rw [lookup_cons_ne _ _ _ _ hkk, lookup_cons_ne _ _ _ _ hkk]
        exact ih

theorem lookup_setKey (o : Obj) (k₀ : String) (v₀ : JVal) (k : String) :
    (setKey o k₀ v₀).lookup k = if k = k₀ then some v₀ else o.lookup k := by
  unfold setKey
  by_cases hk : k = k₀
  · subst hk
    cases hs : (o.lookup k).isSome
    · have hnone : o.lookup k = none := by
        cases hval : o.lookup k <;> simp [hval] at hs ⊢
      rw [if_neg (by simp [hs]), lookup_append, hnone, lookup_cons_self, if_pos rfl]
      rfl
    · rw [if_pos (rfl : true = true), lookup_map_replace_eq o k v₀ hs, if_pos rfl]
  · cases hs : (o.lookup k₀).isSome
    · have h1 : List.lookup k [(k₀, v₀)] = none := by
        simp [List.lookup, beq_false_of_ne hk]
      rw [if_neg (by simp [hs]), lookup_append, h1, if_neg hk]
      cases o.lookup k <;> rfl
    · rw [if_pos (rfl : true = true), lookup_map_replace_ne o k₀ v₀ k hk, if_neg hk]

theorem objectAssign_cons (t : Obj) (k₀ : String) (v₀ : JVal) (rest : Obj) :
    objectAssign t ((k₀, v₀) :: rest) = objectAssign (setKey t k₀ v₀) rest := rfl

theorem lookup_objectAssign (t us : Obj) (k : String) :
    (objectAssign t us).lookup k = (us.reverse.lookup k).or (t.lookup k) := by
  induction us generalizing t with
  | nil => simp [objectAssign]
  | cons kv rest ih =>
    obtain ⟨k₀, v₀⟩ := kv
    rw [objectAssign_cons, ih, lookup_setKey, List.reverse_cons, lookup_append]
    cases hr : rest.reverse.lookup k
    · by_cases hk : k = k₀
      · subst hk
        simp [lookup_cons_self]
      · simp [List.lookup, beq_false_of_ne hk, hk]
    · simp

theorem lookup_reverse_of_nodup (l : Obj) (hnd : (l.map Prod.fst).Nodup) (k : String) :
    l.reverse.lookup k = l.lookup k := by
  induction l with
  | nil => rfl
  | cons kv rest ih =>
    obtain ⟨k₀, v₀⟩ := kv
    simp only [List.map_cons, List.nodup_cons] at hnd
    rw [List.reverse_cons, lookup_append]
    by_cases hk : k = k₀
    · subst hk
      have hnone : rest.reverse.lookup k = none := by
        apply lookup_eq_none_of_not_mem
        simp only [List.map_reverse, List.mem_reverse]
        exact hnd.1
      simp [hnone, lookup_cons_self]
    · have h1 : List.lookup k [(k₀, v₀)] = none := by
        simp [List.lookup, beq_false_of_ne hk]
      rw [ih hnd.2, h1, lookup_cons_ne _ _ _ _ hk]
      cases hr : rest.lookup k <;> simp

end LookupLemmas

section QueryComposerLemmas

theorem lookup_filterMap_keyed (l : List String) (f : String → Option (String × JVal)) (k : String)
    (hf : ∀ key r, f key = some r → r.1 = key) (hk : k ∉ l) :
    (l.filterMap f).lookup k = none := by
  induction l with
  | nil => rfl
  | cons a rest ih =>
    simp only [List.mem_cons, not_or] at hk
    cases hfa : f a with
    | none =>
      rw [List.filterMap_cons, hfa]
      exact ih hk.2
    | some r =>
      obtain ⟨rk, rv⟩ := r
      have hrk : rk = a := hf a (rk, rv) hfa
      subst hrk
      rw [List.filterMap_cons, hfa, lookup_cons_ne _ _ _ _ hk.1]
      exact ih hk.2

theorem normalizeQuery_rest_lookup (query : Obj) (k : String)
    (h1 : k ≠ "$or") (h2 : k ≠ "$and") :
    (query.filter fun kv => kv.1 != "$or" && kv.1 != "$and").lookup k = query.lookup k := by
  apply lookup_filter_of_keep
  intro v
  simp [bne, h1, h2]

theorem normalizeQuery_keep_eq (query : Obj) :
    ((["$or", "$and"]).filterMap fun key =>
        match query.lookup key with
        | some v => if truthyLength v then some (key, v) else none
        | none => none)
      = ((match query.lookup "$or" with
          | some v => if truthyLength v then [("$or", v)] else []
          | none => []) ++
         (match query.lookup "$and" with
          | some v => if truthyLength v then [("$and", v)] else []
          | none => [])) := by
  cases hqor : query.lookup "$or" with
  | none =>
    cases hqand : query.lookup "$and" with
    | none => simp [List.filterMap_cons, hqor, hqand]
    | some v =>
      cases hw : truthyLength v <;> simp [List.filterMap_cons, hqor, hqand, hw]
  | some v =>
    cases hw : truthyLength v with
    | false =>
      cases hqand : query.lookup "$and" with
      | none => simp [List.filterMap_cons, hqor, hqand, hw]
      | some w =>
        cases hw2 : truthyLength w <;> simp [List.filterMap_cons, hqor, hqand, hw, hw2]
    | true =>
      cases hqand : query.lookup "$and" with
      | none => simp [List.filterMap_cons, hqor, hqand, hw]
      | some w =>
        cases hw2 : truthyLength w <;> simp [List.filterMap_cons, hqor, hqand, hw, hw2]

theorem normalizeQuery_eq (query : Obj) :
    normalizeQuery query
      = (query.filter fun kv => kv.1 != "$or" && kv.1 != "$and") ++
        ((match query.lookup "$or" with
          | some v => if truthyLength v then [("$or", v)] else []
          | none => []) ++
         (match query.lookup "$and" with
          | some v => if truthyLength v then [("$and", v)] else []
          | none => [])) := by
  rw [normalizeQuery, normalizeQuery_keep_eq]

theorem prepareFilter_eq_filter_map (query : Obj) (filterNames : List String) :
    prepareFilter query filterNames
      = (filterNames.filter fun n => !(jsGet query n).isUndef).map
          fun n => JVal.obj [(n, convertIdVal (jsGet query n))] := by
  induction filterNames with
  | nil => rfl
  | cons n rest ih =>
    by_cases h : (jsGet query n).isUndef
    · simpa [prepareFilter, List.filterMap_cons, List.filter_cons, h, convertIdVal] using ih
    · simpa [prepareFilter, List.filterMap_cons, List.filter_cons, h, convertIdVal] using ih

end QueryComposerLemmas

/-- C3: for every query-parameter mapping and eligible-field list,
`prepareFilter` returns exactly one equality condition `{field: value}` per
eligible field whose value is present and not `undefined`, in the order of
the eligible-field list (and independent of the mapping's own key order);
a syntactically valid id value is converted to the native representation
(`convertIdVal`), any other value is used raw. -/
theorem prepareFilter_c3 (filterNames : List String) :
    (∀ query : Obj, prepareFilter query filterNames
        = (filterNames.filter fun n => !(jsGet query n).isUndef).map
            fun n => JVal.obj [(n, convertIdVal (jsGet query n))])
    ∧ (∀ query query' : Obj, (∀ k, jsGet query k = jsGet query' k) →
        prepareFilter query filterNames = prepareFilter query' filterNames) := by
  constructor
  · intro query
    exact prepareFilter_eq_filter_map query filterNames
  · intro query query' hagree
    rw [prepareFilter_eq_filter_map, prepareFilter_eq_filter_map]
    simp only [hagree]

/-- Witness for C3: with eligible fields `["user", "missing", "tag"]` and a
query supplying `user` (a valid 24-hex id), `tag` (a plain string, listed
before `user` in the mapping) and an `undefined` entry, the conditions come
out in eligible-field order with the id converted, and a key-reordered
mapping gives the same result. -/
theorem prepareFilter_c3_witness :
    (prepareFilter [("tag", JVal.str "x"), ("user", JVal.str "aaaaaaaaaaaaaaaaaaaaaaaa"), ("missing", JVal.undef)] ["user", "missing", "tag"]
        = ((["user", "missing", "tag"].filter fun n => !(jsGet [("tag", JVal.str "x"), ("user", JVal.str "aaaaaaaaaaaaaaaaaaaaaaaa"), ("missing", JVal.undef)] n).isUndef).map
            fun n => JVal.obj [(n, convertIdVal (jsGet [("tag", JVal.str "x"), ("user", JVal.str "aaaaaaaaaaaaaaaaaaaaaaaa"), ("missing", JVal.undef)] n))]))
    ∧ prepareFilter [("tag", JVal.str "x"), ("user", JVal.str "aaaaaaaaaaaaaaaaaaaaaaaa"), ("missing", JVal.undef)] ["user", "missing", "tag"]
        = prepareFilter [("user", JVal.str "aaaaaaaaaaaaaaaaaaaaaaaa"), ("missing", JVal.undef), ("tag", JVal.str "x")] ["user", "missing", "tag"] := by
  constructor
  · exact (prepareFilter_c3 ["user", "missing", "tag"]).1 _
  · refine (prepareFilter_c3 ["user", "missing", "tag"]).2 _ _ ?_
    intro k
    by_cases h1 : k = "tag"
    · subst h1; rfl
    · by_cases h2 : k = "user"
      · subst h2; rfl
      · by_cases h3 : k = "missing"
        · subst h3; rfl
        · simp [jsGet, lookup_cons_ne _ _ _ _ h1, lookup_cons_ne _ _ _ _ h2, lookup_cons_ne _ _ _ _ h3]

theorem lookup_groupEntry_ne (o : Option JVal) (key k : String) (h : k ≠ key) :
    (match o with
     | some v => if truthyLength v then [(key, v)] else []
     | none => ([] : Obj)).lookup k = none := by
  cases o with
  | none => rfl
  | some v => cases hw : truthyLength v <;> simp [hw, List.lookup, beq_false_of_ne h]

theorem normalizeQuery_lookup_or (query : Obj)
    (hor : ∀ v, query.lookup "$or" = some v → ∃ xs, v = JVal.arr xs) :
    (normalizeQuery query).lookup "$or"
        = match query.lookup "$or" with
          | some (JVal.arr xs) => if xs.isEmpty then none else some (JVal.arr xs)
          | _ => none := by
  have hdrop_or : (query.filter fun kv => kv.1 != "$or" && kv.1 != "$and").lookup "$or" = none := by
    apply lookup_filter_of_drop
    intro v
    simp [bne]
  have hne' : ("$or" : String) ≠ "$and" := by decide
  rw [normalizeQuery_eq, lookup_append, hdrop_or, Option.none_or, lookup_append,
    lookup_groupEntry_ne _ _ _ hne']
  cases hqor : query.lookup "$or" with
  | none => rfl
  | some v =>
    obtain ⟨xs, rfl⟩ := hor v hqor
    cases hxs : xs.isEmpty with
    | true => simp [truthyLength, hxs]
    | false => simp [truthyLength, hxs, lookup_cons_self]

theorem normalizeQuery_lookup_and (query : Obj)
    (hand : ∀ v, query.lookup "$and" = some v → ∃ xs, v = JVal.arr xs) :
    (normalizeQuery query).lookup "$and"
        = match query.lookup "$and" with
          | some (JVal.arr xs) => if xs.isEmpty then none else some (JVal.arr xs)
          | _ => none := by
  have hdrop_and : (query.filter fun kv => kv.1 != "$or" && kv.1 != "$and").lookup "$and" = none := by
    apply lookup_filter_of_drop
    intro v
    simp [bne]
  have hne : ("$and" : String) ≠ "$or" := by decide
  rw [normalizeQuery_eq, lookup_append, hdrop_and, Option.none_or, lookup_append,
    lookup_groupEntry_ne _ _ _ hne, Option.none_or]
  cases hqand : query.lookup "$and" with
  | none => rfl
  | some v =>
    obtain ⟨xs, rfl⟩ := hand v hqand
    cases hxs : xs.isEmpty with
    | true => simp [truthyLength, hxs]
    | false => simp [truthyLength, hxs, lookup_cons_self]

theorem normalizeQuery_lookup_other (query : Obj) (k : String)
    (h1 : k ≠ "$or") (h2 : k ≠ "$and") :
    (normalizeQuery query).lookup k = query.lookup k := by
  rw [normalizeQuery_eq, lookup_append, normalizeQuery_rest_lookup query k h1 h2,
    lookup_append, lookup_groupEntry_ne _ _ _ h1, lookup_groupEntry_ne _ _ _ h2,
    Option.none_or]
  exact Option.or_none

/-- C4: for every input filter expression whose `$or`/`$and` members are
sequences (when present), `normalizeQuery` keeps a group key exactly when
the input group is non-empty (an empty or absent group is removed, a
non-empty one keeps its value) and passes every other top-level key through
unchanged; being a pure function of the embedding, it leaves the input
expression untouched. -/
theorem normalizeQuery_c4 (query : Obj)
    (hor : ∀ v, query.lookup "$or" = some v → ∃ xs, v = JVal.arr xs)
    (hand : ∀ v, query.lookup "$and" = some v → ∃ xs, v = JVal.arr xs) :
    ((normalizeQuery query).lookup "$or"
        = match query.lookup "$or" with
          | some (JVal.arr xs) => if xs.isEmpty then none else some (JVal.arr xs)
          | _ => none)
    ∧ ((normalizeQuery query).lookup "$and"
        = match query.lookup "$and" with
          | some (JVal.arr xs) => if xs.isEmpty then none else some (JVal.arr xs)
          | _ => none)
    ∧ (∀ k, k ≠ "$or" → k ≠ "$and" →
        (normalizeQuery query).lookup k = query.lookup k) :=
  ⟨normalizeQuery_lookup_or query hor, normalizeQuery_lookup_and query hand,
    fun k h1 h2 => normalizeQuery_lookup_other query k h1 h2⟩

/-- Witness for C4: on the query `{a: "1", $or: [], $and: [{b: "2"}]}` the
empty `$or` group is removed, the non-empty `$and` group is kept with its
value, and the ordinary key `a` passes through unchanged. -/
theorem normalizeQuery_c4_witness :
    ((normalizeQuery [("a", JVal.str "1"), ("$or", JVal.arr []), ("$and", JVal.arr [JVal.obj [("b", JVal.str "2")]])]).lookup "$or" = none)
    ∧ ((normalizeQuery [("a", JVal.str "1"), ("$or", JVal.arr []), ("$and", JVal.arr [JVal.obj [("b", JVal.str "2")]])]).lookup "$and"
        = some (JVal.arr [JVal.obj [("b", JVal.str "2")]]))
    ∧ ((normalizeQuery [("a", JVal.str "1"), ("$or", JVal.arr []), ("$and", JVal.arr [JVal.obj [("b", JVal.str "2")]])]).lookup "a"
        = some (JVal.str "1")) := by
  have h := normalizeQuery_c4 [("a", JVal.str "1"), ("$or", JVal.arr []), ("$and", JVal.arr [JVal.obj [("b", JVal.str "2")]])]
    (fun v hv => ⟨[], (Option.some.inj hv).symm⟩)
    (fun v hv => ⟨[JVal.obj [("b", JVal.str "2")]], (Option.some.inj hv).symm⟩)
  refine ⟨?_, ?_, ?_⟩
  · rw [h.1]
    rfl
  · rw [h.2.1]
    rfl
  · rw [h.2.2 "a" (by decide) (by decide)]
    rfl

theorem buildItemData_keys (fieldNames : List String) (body : Obj) :
    (buildItemData fieldNames body).map Prod.fst = fieldNames := by
  induction fieldNames with
  | nil => rfl
  | cons f rest ih =>
    simp only [buildItemData, List.map_cons] at ih ⊢
    rw [ih]

/-- C1: the `fieldNames` whitelist strictly controls which request-body keys
reach the item data built by `create` and `update`: two bodies agreeing on
every whitelisted field produce identical item data, and a key outside the
whitelist (such as `secret`) never appears in the built item data. -/
theorem fieldNames_whitelist_c1 (fieldNames : List String) :
    (∀ body body' : Obj, (∀ f ∈ fieldNames, jsGet body f = jsGet body' f) →
        buildItemData fieldNames body = buildItemData fieldNames body')
    ∧ (∀ (body : Obj) (k : String), k ∉ fieldNames →
        (buildItemData fieldNames body).lookup k = none) := by
  constructor
  · intro body body'
    induction fieldNames with
    | nil => intro _; rfl
    | cons f rest ih =>
      intro hagree
      have h1 := hagree f (by simp)
      have h2 := fun g hg => hagree g (List.mem_cons_of_mem f hg)
      simp only [buildItemData, List.map_cons] at ih ⊢
      rw [h1, ih h2]
  · intro body k hk
    apply lookup_eq_none_of_not_mem
    rw [buildItemData_keys]
    exact hk

/-- Witness for C1: with `fieldNames = ["title"]` the bodies
`{title: "X", secret: "Y"}` and `{title: "X"}` build identical item data,
and `secret` is absent from it. -/
theorem fieldNames_whitelist_c1_witness :
    buildItemData ["title"] [("title", JVal.str "X"), ("secret", JVal.str "Y")]
        = buildItemData ["title"] [("title", JVal.str "X")]
    ∧ (buildItemData ["title"] [("title", JVal.str "X"), ("secret", JVal.str "Y")]).lookup "secret" = none := by
  constructor
  · refine (fieldNames_whitelist_c1 ["title"]).1 _ _ ?_
    intro f hf
    simp only [List.mem_singleton] at hf
    subst hf
    rfl
  · exact (fieldNames_whitelist_c1 ["title"]).2 _ "secret" (by decide)

/-- C2: in `update`, every field present in the built update payload
(the whitelisted item data after the pre-update hook) overrides the
corresponding field of the already-resolved document in the item that gets
dispatched, and every field of the document not present in the payload
keeps its prior value. -/
theorem update_frame_c2 (fieldNames : List String) (body doc : Obj) (hook : Obj → Obj)
    (methods : Obj → OperationType → Except String JVal)
    (hnd : ((hook (buildItemData fieldNames body)).map Prod.fst).Nodup) :
    ∀ k : String,
      (∀ v, (hook (buildItemData fieldNames body)).lookup k = some v →
          (BasicController.update fieldNames body hook doc methods).item.lookup k = some v)
      ∧ ((hook (buildItemData fieldNames body)).lookup k = none →
          (BasicController.update fieldNames body hook doc methods).item.lookup k = doc.lookup k) := by
  intro k
  have hitem : (BasicController.update fieldNames body hook doc methods).item
      = objectAssign doc (hook (buildItemData fieldNames body)) := rfl
  constructor
  · intro v hv
    rw [hitem, lookup_objectAssign, lookup_reverse_of_nodup _ hnd, hv]
    rfl
  · intro hv
    rw [hitem, lookup_objectAssign, lookup_reverse_of_nodup _ hnd, hv]
    exact Option.none_or

/-- Witness for C2: updating the document `{title: "old", status: "active"}`
with `fieldNames = ["title"]` and body `{title: "X"}` (identity hook)
overrides `title` with `"X"` while `status` keeps its prior value. -/
theorem update_frame_c2_witness :
    (BasicController.update ["title"] [("title", JVal.str "X")] (fun d => d)
        [("title", JVal.str "old"), ("status", JVal.str "active")]
        (fun _ _ => Except.ok JVal.undef)).item.lookup "title" = some (JVal.str "X")
    ∧ (BasicController.update ["title"] [("title", JVal.str "X")] (fun d => d)
        [("title", JVal.str "old"), ("status", JVal.str "active")]
        (fun _ _ => Except.ok JVal.undef)).item.lookup "status" = some (JVal.str "active") := by
  have h := update_frame_c2 ["title"] [("title", JVal.str "X")]
    [("title", JVal.str "old"), ("status", JVal.str "active")] (fun d => d)
    (fun _ _ => Except.ok JVal.undef) (by decide)
  constructor
  · exact (h "title").1 (JVal.str "X") rfl
  · rw [(h "status").2 rfl]
    rfl

/-- C9: in `create` the `user` field is assigned from the request's
authenticated actor after the pre-create hook runs, so the dispatched item's
`user` always equals `req.user`, whatever user value the pre-create hook
placed in the candidate item data. -/
theorem create_user_c9 (fieldNames : List String) (body : Obj) (hook : Obj → Obj)
    (user : JVal) (methods : Obj → OperationType → Except String JVal) :
    (BasicController.create fieldNames body hook user methods).item.lookup "user" = some user := by
  have hitem : (BasicController.create fieldNames body hook user methods).item
      = setKey (hook (buildItemData fieldNames body)) "user" user := rfl
  rw [hitem, lookup_setKey, if_pos rfl]

/-- C6: `get` with an id that is not a syntactically valid ObjectId answers
a 400 client error with message "ID is invalid" and performs no storage
call, whatever the storage lookup would have produced. -/
theorem get_invalid_id_c6 (id : String) (r : Except String (Option JVal))
    (h : isValidObjectId (JVal.str id) = false) :
    BasicController.get id r = (Response.errorRes 400 "ID is invalid", ([] : List StorageOp)) := by
  simp [BasicController.get, h]

/-- Witness for C6: `get` with id `"not-an-id"` short-circuits with
"ID is invalid" and an empty storage-call log. -/
theorem get_invalid_id_c6_witness :
    BasicController.get "not-an-id" (Except.ok none)
        = (Response.errorRes 400 "ID is invalid", ([] : List StorageOp)) :=
  get_invalid_id_c6 "not-an-id" (Except.ok none) (by decide)

/-- C7: create, update and delete all funnel through the single save/delete
dispatcher: when the item's storage call fails with message `m`, each
operation answers a 400 client error carrying exactly `m`; when it succeeds,
each answers the operation's result payload. -/
theorem ops_uniform_error_c7 (fieldNames : List String) (body doc : Obj)
    (hookC hookU hookD : Obj → Obj) (user : JVal) (r : Except String JVal) :
    (∀ m, r = Except.error m →
        (BasicController.create fieldNames body hookC user (fun _ _ => r)).response = Response.errorRes 400 m
        ∧ (BasicController.update fieldNames body hookU doc (fun _ _ => r)).response = Response.errorRes 400 m
        ∧ (BasicController.delete doc hookD (fun _ _ => r)).response = Response.errorRes 400 m)
    ∧ (∀ p, r = Except.ok p →
        (BasicController.create fieldNames body hookC user (fun _ _ => r)).response = Response.json p
        ∧ (BasicController.update fieldNames body hookU doc (fun _ _ => r)).response = Response.json p
        ∧ (BasicController.delete doc hookD (fun _ _ => r)).response = Response.json p) := by
  constructor
  · rintro m rfl
    exact ⟨rfl, rfl, rfl⟩
  · rintro p rfl
    exact ⟨rfl, rfl, rfl⟩

/-- Witness for C7: a save/delete call failing with message "boom" makes
create, update and delete each answer a 400 client error carrying "boom". -/
theorem ops_uniform_error_c7_witness :
    (BasicController.create ["title"] [] (fun d => d) JVal.undef (fun _ _ => Except.error "boom")).response = Response.errorRes 400 "boom"
    ∧ (BasicController.update ["title"] [] (fun d => d) [] (fun _ _ => Except.error "boom")).response = Response.errorRes 400 "boom"
    ∧ (BasicController.delete [] (fun d => d) (fun _ _ => Except.error "boom")).response = Response.errorRes 400 "boom" :=
  (ops_uniform_error_c7 ["title"] [] [] (fun d => d) (fun d => d) (fun d => d) JVal.undef
    (Except.error "boom")).1 "boom" rfl

/-- C10: the connect wrapper's promise fulfills for every driver outcome —
with an undefined handle (after the logging catch branch) when the driver's
connect rejects, and with the connection handle only on success. -/
theorem connect_never_rejects_c10 (e : String) (conn : JVal) :
    (∀ d : Except String Unit, ∃ v, connect d conn = Except.ok v)
    ∧ connect (Except.error e) conn = Except.ok none
    ∧ connect (Except.ok ()) conn = Except.ok (some conn) := by
  refine ⟨?_, rfl, rfl⟩
  intro d
  cases d with
  | ok u => exact ⟨some conn, rfl⟩
  | error e' => exact ⟨none, rfl⟩

theorem parse_escapeChars (l : List Char) :
    parseLiteralPattern (escapeChars l) = some l := by
  induction l with
  | nil => rfl
  | cons c rest ih =>
    by_cases hc : c ∈ regexMetaChars
    · simp only [escapeChars, hc, if_true, List.cons_append, List.nil_append]
      show (parseLiteralPattern (escapeChars rest)).map (c :: ·) = some (c :: rest)
      rw [ih]
      rfl
    · have hcb : c ≠ '\\' := fun h => hc (h ▸ (by decide : '\\' ∈ regexMetaChars))
      simp only [escapeChars, hc, if_false, List.cons_append, List.nil_append]
      rw [parseLiteralPattern.eq_def]
      simp [hcb, hc, ih]

/-- C5: the escaping in `list` neutralises every regex metacharacter of the
set `. * + ? ^ $ { } ( ) | [ ] \`: the escaped search term always parses as
a pure literal pattern denoting exactly the original term, so the resulting
case-insensitive regex matches exactly the strings containing the term as a
literal substring — a term such as `a.b*c` is never interpreted as regex
syntax. -/
theorem escape_literal_c5 (q s : String) :
    parseLiteralPattern (escapeRegex q).data = some q.data
    ∧ regexTestCI (escapeRegex q) s = isSubChars (lowerChars q.data) (lowerChars s.data) := by
  have hdata : (escapeRegex q).data = escapeChars q.data := rfl
  have h : parseLiteralPattern (escapeRegex q).data = some q.data := by
    rw [hdata]
    exact parse_escapeChars q.data
  refine ⟨h, ?_⟩
  simp [regexTestCI, h]

theorem mergeDeep_nil (t : Obj) : mergeDeep t [] = t := rfl

/-- C8: for a list request with an empty search term, the composed query's
`$or` group holds one condition per configured search field whose regex
pattern is the empty string; when no search fields are configured the group
is empty, dropped by normalization, and the search term has no effect at
all on the final filter. -/
theorem list_empty_search_c8 (fns filt : List String) (rq : Obj) :
    ((BasicController.listComposeQuery "" fns filt rq []).lookup "$or"
        = if fns.isEmpty then none
          else some (JVal.arr (fns.map fun f => JVal.obj [(f, JVal.obj [("$regex", JVal.regex "" "i")])])))
    ∧ (fns = [] → ∀ (q q' : String) (extra : Obj),
        BasicController.listComposeQuery q fns filt rq extra
          = BasicController.listComposeQuery q' fns filt rq extra) := by
  constructor
  · have hesc : escapeRegex "" = "" := rfl
    have hq : BasicController.listComposeQuery "" fns filt rq []
        = normalizeQuery
            [("$or", JVal.arr (fns.map fun f => JVal.obj [(f, JVal.obj [("$regex", JVal.regex (escapeRegex "") "i")])])),
             ("$and", JVal.arr (prepareFilter rq filt))] := rfl
    rw [hq, hesc, normalizeQuery_lookup_or
      [("$or", JVal.arr (fns.map fun f => JVal.obj [(f, JVal.obj [("$regex", JVal.regex "" "i")])])),
       ("$and", JVal.arr (prepareFilter rq filt))]
      (fun v hv => ⟨fns.map fun f => JVal.obj [(f, JVal.obj [("$regex", JVal.regex "" "i")])],
        (Option.some.inj hv).symm⟩)]
    cases fns with
    | nil => rfl
    | cons f rest => simp [lookup_cons_self]
  · rintro rfl q q' extra
    rfl

/-- Witness for C8: with one search field `title` and empty term the `$or`
group carries a single empty-pattern condition, and with no search fields
two different search terms compose the same final filter. -/
theorem list_empty_search_c8_witness :
    ((BasicController.listComposeQuery "" ["title"] [] [] []).lookup "$or"
        = some (JVal.arr [JVal.obj [("title", JVal.obj [("$regex", JVal.regex "" "i")])]]))
    ∧ BasicController.listComposeQuery "a" [] [] [] []
        = BasicController.listComposeQuery "b" [] [] [] [] := by
  constructor
  · rw [(list_empty_search_c8 ["title"] [] []).1]
    rfl
  · exact (list_empty_search_c8 [] [] []).2 rfl "a" "b" []

end KraneStorageMongo
